import Mathlib

/-
Verification of the CryptoBot repository: a Double Deep Q-Network (DDQN)
trading agent (`q_learning` notebook) and a small pandas convenience
utility (`test.py`).

The embedding is shallow:
* Machine floats are modelled by exact rationals (ℚ).
* The two neural networks are opaque: a network is represented by its
  weight vector (`List ℚ`), and prediction by an arbitrary evaluation
  function passed in as a parameter.  The effect of one TensorFlow
  gradient step (`train_on_batch`) is likewise abstracted as the new
  weight vector it produces, passed to `experience_replay` as an input.
* Python's `deque(maxlen=c)` is modelled by `dequeAppend`.
* pandas DataFrames are modelled by a list of column labels plus a list
  of rows; Python object identity (needed for the in-place and copy claims
  about `flatten_cols` and `mask`) is modelled by a store of DataFrame
  values indexed by references (natural numbers).
-/

/-- First index of the maximum entry of a list (ties keep the earliest
index), as computed by `np.argmax` / `tf.argmax`; `0` on `[]`. -/
def argmaxIdx (l : List ℚ) : ℕ :=
  (l.enum.foldl (fun best p => if best.2 < p.2 then p else best) (0, l.headD 0)).1

/-- `collections.deque(maxlen = cap)` append: the new element goes to the
back; if the deque is full the front (oldest) elements are discarded. -/
def dequeAppend {α : Type} (cap : ℕ) (xs : List α) (x : α) : List α :=
  (xs ++ [x]).drop (xs.length + 1 - cap)

/-- One replay-buffer record, the 5-tuple `(s, a, r, s_prime, not_done)`
appended by `DDQNAgent.memorize_transition`. -/
structure Transition where
  state : List ℚ
  action : ℕ
  reward : ℚ
  nextState : List ℚ
  notDone : ℚ
deriving DecidableEq, Repr

instance : Inhabited Transition := ⟨⟨[], 0, 0, [], 0⟩⟩

/-- The mutable state of `DDQNAgent`.  Network objects are reduced to
their weight vectors; `tf.range(batch_size)` (`self.idx`) is a constant
tensor and is omitted. -/
structure Agent where
  stateDim : ℕ
  numActions : ℕ
  experience : List Transition
  learningRate : ℚ
  gamma : ℚ
  architecture : List ℕ
  l2Reg : ℚ
  onlineWeights : List ℚ
  targetWeights : List ℚ
  epsilon : ℚ
  epsilonDecaySteps : ℕ
  epsilonDecay : ℚ
  epsilonExponentialDecay : ℚ
  epsilonHistory : List ℚ
  totalSteps : ℕ
  trainSteps : ℕ
  episodes : ℕ
  episodeLength : ℕ
  trainEpisodes : ℕ
  stepsPerEpisode : List ℕ
  episodeReward : ℚ
  rewardsHistory : List ℚ
  batchSize : ℕ
  tau : ℕ
  losses : List ℚ
  replayCapacity : ℕ
  train : Bool
deriving DecidableEq, Repr

/-- `DDQNAgent.__init__`.  `w0` is the (opaque) initial weight vector the
model builder produces; `__init__` then calls `update_target`, so both
networks start with the same weights. -/
def mkAgent (stateDim numActions : ℕ) (learningRate gamma epsilonStart epsilonEnd : ℚ)
    (epsilonDecaySteps : ℕ) (epsilonExponentialDecay : ℚ) (replayCapacity : ℕ)
    (architecture : List ℕ) (l2Reg : ℚ) (tau batchSize : ℕ) (w0 : List ℚ) : Agent where
  stateDim := stateDim
  numActions := numActions
  experience := []
  learningRate := learningRate
  gamma := gamma
  architecture := architecture
  l2Reg := l2Reg
  onlineWeights := w0
  targetWeights := w0
  epsilon := epsilonStart
  epsilonDecaySteps := epsilonDecaySteps
  epsilonDecay := (epsilonStart - epsilonEnd) / (epsilonDecaySteps : ℚ)
  epsilonExponentialDecay := epsilonExponentialDecay
  epsilonHistory := []
  totalSteps := 0
  trainSteps := 0
  episodes := 0
  episodeLength := 0
  trainEpisodes := 0
  stepsPerEpisode := []
  episodeReward := 0
  rewardsHistory := []
  batchSize := batchSize
  tau := tau
  losses := []
  replayCapacity := replayCapacity
  train := true

/-- `DDQNAgent.update_target`: hard copy of the online weights onto the
target network. -/
def update_target (ag : Agent) : Agent :=
  { ag with targetWeights := ag.onlineWeights }

/-- `DDQNAgent.epsilon_greedy_policy`.  `ev` is the opaque network
evaluation (weights and state to action-values), `u` the draw of
`np.random.rand()` (uniform on `[0,1)`) and `c` the draw of
`np.random.choice(num_actions)`.  The lifetime step counter is
incremented unconditionally; the random branch is taken iff `u ≤ ε`. -/
def epsilon_greedy_policy (ev : List ℚ → List ℚ → List ℚ) (ag : Agent)
    (u : ℚ) (c : ℕ) (s : List ℚ) : Agent × ℕ :=
  let ag1 := { ag with totalSteps := ag.totalSteps + 1 }
  if u ≤ ag.epsilon then (ag1, c)
  else (ag1, argmaxIdx (ev ag.onlineWeights s))

/-- `DDQNAgent.memorize_transition`.  Python's `if not_done:` on a float
is truth-y iff the value is nonzero. -/
def memorize_transition (ag : Agent) (t : Transition) : Agent :=
  if t.notDone ≠ 0 then
    { ag with
        episodeReward := ag.episodeReward + t.reward,
        episodeLength := ag.episodeLength + 1,
        experience := dequeAppend ag.replayCapacity ag.experience t }
  else
    let agEps :=
      if ag.train then
        if ag.episodes < ag.epsilonDecaySteps then
          { ag with epsilon := ag.epsilon - ag.epsilonDecay }
        else
          { ag with epsilon := ag.epsilon * ag.epsilonExponentialDecay }
      else ag
    { agEps with
        episodes := agEps.episodes + 1,
        rewardsHistory := agEps.rewardsHistory ++ [agEps.episodeReward],
        stepsPerEpisode := agEps.stepsPerEpisode ++ [agEps.episodeLength],
        episodeReward := 0,
        episodeLength := 0,
        experience := dequeAppend agEps.replayCapacity agEps.experience t }

/-- State effect of `DDQNAgent.experience_replay`.  Sampling and the
TensorFlow gradient step are opaque: `newOnline` is the weight vector
`train_on_batch` leaves in the online network and `loss` the scalar loss
it returns.  Below batch size the call returns immediately; otherwise
the online network is trained, the loss recorded, and the target network
synchronized exactly when `total_steps % tau == 0`. -/
def experience_replay (ag : Agent) (newOnline : List ℚ) (loss : ℚ) : Agent :=
  if ag.experience.length < ag.batchSize then ag
  else
    let ag1 := { ag with onlineWeights := newOnline, losses := ag.losses ++ [loss] }
    if ag.totalSteps % ag.tau = 0 then update_target ag1 else ag1

/-- The Double-Q regression targets computed inside
`DDQNAgent.experience_replay` (the lines from `next_q_values` to
`targets`): per-sample argmax over the online network's next-state
values, `gather_nd` into the target network's next-state values, and
`rewards + not_done * gamma * target_q_values`.  `predict_on_batch` maps
the network function over the rows of the batch. -/
def ddqnTargets (gamma : ℚ) (online target : List ℚ → List ℚ)
    (batch : List Transition) : List ℚ :=
  let nextStates := batch.map (fun t => t.nextState)
  let nextQValues := nextStates.map online
  let bestActions := nextQValues.map argmaxIdx
  let nextQValuesTarget := nextStates.map target
  let targetQValues := (nextQValuesTarget.zip bestActions).map (fun p => p.1.getD p.2 0)
  (batch.zip targetQValues).map (fun p => p.1.reward + p.1.notDone * gamma * p.2)

/-- A pandas column label: either a flat string or a two-level tuple
(as produced by aggregation/pivot operations). -/
inductive ColLabel where
  | str (s : String)
  | tup (a b : String)
deriving DecidableEq, Repr

/-- A DataFrame whose column labels may be hierarchical (`test.py`
`flatten_cols` operates on these).  Cell values are modelled as
integers; their type plays no role in the label claims. -/
structure MDF where
  cols : List ColLabel
  rows : List (List Int)
deriving DecidableEq, Repr

/-- A DataFrame with flat string column labels (`test.py` `mask`
operates on these). -/
structure DF where
  cols : List String
  rows : List (List Int)
deriving DecidableEq, Repr

/-- Python `str.strip()`: drop whitespace characters from both ends of
the string (written over the character list so that it reduces in the
kernel). -/
def pyStrip (s : String) : String :=
  String.mk (((s.data.dropWhile Char.isWhitespace).reverse.dropWhile Char.isWhitespace).reverse)

/-- Python `' '.join(col).strip()` applied to one column label.  On a
two-level tuple the join is the two levels separated by one space; on a
plain string `str.join` interleaves the separator between the
characters.  `strip` removes surrounding whitespace. -/
def flattenLabel : ColLabel → ColLabel
  | .tup a b => .str (pyStrip (a ++ " " ++ b))
  | .str s => .str (pyStrip (String.intercalate " " (s.toList.map (fun c => String.mk [c]))))

/-- `test.py` `flatten_cols(df)` over a store of DataFrame objects:
`df.columns = [' '.join(col).strip() for col in df.columns.values]`
mutates the object at reference `r` in place, and `return df` hands back
the same reference. -/
def flatten_cols (σ : List MDF) (r : ℕ) : Option (List MDF × ℕ) :=
  match σ.get? r with
  | none => none
  | some df => some (σ.set r { df with cols := df.cols.map flattenLabel }, r)

/-- `test.py` `mask(df, key, function)` body on DataFrame values:
`df[function(df[key])]` selects the column named `key`, applies the
predicate elementwise, and keeps exactly the rows on which it is true
(order and all columns preserved); a missing key raises. -/
def maskFilter (df : DF) (key : String) (p : Int → Bool) : Option DF :=
  match df.cols.findIdx? (fun c => c == key) with
  | none => none
  | some i => some { cols := df.cols, rows := df.rows.filter (fun row => p (row.getD i 0)) }

/-- `test.py` `mask` over a store of DataFrame objects: pandas boolean
indexing allocates a new DataFrame (a fresh reference at the end of the
store) and leaves every existing object untouched. -/
def mask (σ : List DF) (r : ℕ) (key : String) (p : Int → Bool) : Option (List DF × ℕ) :=
  match σ.get? r with
  | none => none
  | some df =>
    match maskFilter df key p with
    | none => none
    | some fd => some (σ ++ [fd], σ.length)

/-- pandas `Series.rolling(w).sum()` on a 0/1 series (default
`min_periods = w`): position `i` is empty (NaN) until the window is
full, and otherwise holds the sum of the `w` entries ending at `i`. -/
def rollingSum (w : ℕ) (xs : List ℕ) : List (Option ℕ) :=
  (List.range xs.length).map (fun i =>
    if i + 1 < w then none else some (((xs.take (i + 1)).drop (i + 1 - w)).sum))

/-- The `Strategy Wins (%)` column of the results table:
`(results.Difference > 0).rolling(100).sum()` — the boolean series
`Difference > 0` (as 0/1) under a 100-period rolling sum. -/
def strategyWinsCol (diffs : List ℚ) : List (Option ℕ) :=
  rollingSum 100 (diffs.map (fun d => if 0 < d then 1 else 0))

/-- The agent instance the notebook constructs: `state_dim` and
`num_actions` read from the environment (10 features, 3 actions),
`learning_rate = 0.0001`, `gamma = 0.99`, `epsilon_start = 1.0`,
`epsilon_end = 0.01`, `epsilon_decay_steps = 250`,
`epsilon_exponential_decay = 0.99`, `replay_capacity = 1e6`,
`architecture = (256, 256)`, `l2_reg = 1e-6`, `tau = 100`,
`batch_size = 4096`; the initial weight vector is opaque (`[]`). -/
def notebookAgent : Agent :=
  mkAgent 10 3 (1/10000) (99/100) 1 (1/100) 250 (99/100) 1000000
    [256, 256] (1/1000000) 100 4096 []

/-- A terminal transition (`not_done = 0.0`). -/
def termTransition : Transition := ⟨[], 0, 0, [], 0⟩

lemma memorize_transition_experience (ag : Agent) (t : Transition) :
    (memorize_transition ag t).experience = dequeAppend ag.replayCapacity ag.experience t := by
  unfold memorize_transition
  split_ifs <;> rfl

lemma memorize_transition_replayCapacity (ag : Agent) (t : Transition) :
    (memorize_transition ag t).replayCapacity = ag.replayCapacity := by
  unfold memorize_transition
  split_ifs <;> rfl

lemma memorize_transition_targetWeights (ag : Agent) (t : Transition) :
    (memorize_transition ag t).targetWeights = ag.targetWeights := by
  unfold memorize_transition
  split_ifs <;> rfl

lemma dequeAppend_length {α : Type} (cap : ℕ) (xs : List α) (x : α) :
    (dequeAppend cap xs x).length = min (xs.length + 1) cap := by
  simp [dequeAppend]
  omega

lemma foldl_memorize_length (ts : List Transition) :
    ∀ ag : Agent, ag.experience.length ≤ ag.replayCapacity →
      ((ts.foldl memorize_transition ag).experience.length ≤ ag.replayCapacity) := by
  induction ts with
  | nil => intro ag h; exact h
  | cons t ts ih =>
    intro ag h
    have hcap := memorize_transition_replayCapacity ag t
    have hlen : (memorize_transition ag t).experience.length ≤
        (memorize_transition ag t).replayCapacity := by
      rw [memorize_transition_experience, hcap, dequeAppend_length]
      omega
    have hfold := ih (memorize_transition ag t) hlen
    rw [hcap] at hfold
    simpa using hfold

/-- Claim C5: a call to experience replay while the buffer holds fewer
transitions than the batch size is a no-op: the agent state — in
particular the online weights, the target weights and the losses
history — is returned unchanged, without error. -/
theorem experience_replay_noop (ag : Agent) (w : List ℚ) (l : ℚ)
    (h : ag.experience.length < ag.batchSize) :
    experience_replay ag w l = ag := by
  unfold experience_replay
  rw [if_pos h]

theorem experience_replay_noop_witness :
    notebookAgent.experience.length < notebookAgent.batchSize ∧
    experience_replay notebookAgent [1] 2 = notebookAgent :=
  ⟨by decide, experience_replay_noop notebookAgent [1] 2 (by decide)⟩

/-- Claim C3: on an experience-replay call that performs a learning
update, the target network is synchronized to the (freshly trained)
online weights exactly when the lifetime step counter is divisible by
τ; in every other situation — a learning update off the τ grid (even
though it rewrites the online weights), a below-batch-size call, a
transition-recording call, an action-selection call — the target
weights are left untouched. -/
theorem target_sync_cadence (ag : Agent) (w : List ℚ) (l : ℚ) :
    (ag.tau ∣ ag.totalSteps → ag.batchSize ≤ ag.experience.length →
      (experience_replay ag w l).targetWeights = w ∧
      (experience_replay ag w l).onlineWeights = w) ∧
    (¬ ag.tau ∣ ag.totalSteps →
      (experience_replay ag w l).targetWeights = ag.targetWeights) ∧
    (ag.batchSize ≤ ag.experience.length →
      (experience_replay ag w l).onlineWeights = w) ∧
    (ag.experience.length < ag.batchSize →
      (experience_replay ag w l).targetWeights = ag.targetWeights) ∧
    (∀ t, (memorize_transition ag t).targetWeights = ag.targetWeights) ∧
    (∀ ev u c s, (epsilon_greedy_policy ev ag u c s).1.targetWeights = ag.targetWeights) := by
  refine ⟨?_, ?_, ?_, ?_, ?_, ?_⟩
  · intro hdvd hlen
    have hnl : ¬ ag.experience.length < ag.batchSize := not_lt.mpr hlen
    have hmod : ag.totalSteps % ag.tau = 0 := Nat.mod_eq_zero_of_dvd hdvd
    simp [experience_replay, hnl, hmod, update_target]
  · intro hndvd
    have hmod : ¬ ag.totalSteps % ag.tau = 0 := by
      intro h
      exact hndvd (Nat.dvd_of_mod_eq_zero h)
    unfold experience_replay
    split_ifs <;> rfl
  · intro hlen
    have hnl : ¬ ag.experience.length < ag.batchSize := not_lt.mpr hlen
    unfold experience_replay
    rw [if_neg hnl]
    split_ifs <;> rfl
  · intro h
    unfold experience_replay
    rw [if_pos h]
  · intro t
    exact memorize_transition_targetWeights ag t
  · intro ev u c s
    unfold epsilon_greedy_policy
    split_ifs <;> rfl

/-- An agent mid-run: full enough buffer for a learning update, lifetime
step counter on the τ grid. -/
def c3Agent : Agent :=
  { notebookAgent with batchSize := 1, experience := [termTransition], totalSteps := 200 }

theorem target_sync_cadence_witness :
    c3Agent.tau ∣ c3Agent.totalSteps ∧ c3Agent.batchSize ≤ c3Agent.experience.length ∧
    (experience_replay c3Agent [5] 0).targetWeights = [5] :=
  ⟨⟨2, rfl⟩, by decide, ((target_sync_cadence c3Agent [5] 0).1 ⟨2, rfl⟩ (by decide)).1⟩

/-- Claim C4: the replay buffer never exceeds the configured capacity
under any sequence of transition-recording calls; an insertion at
capacity evicts exactly the oldest stored transition, and below
capacity the transition is appended at the back (unconditionally, in
arrival order). -/
theorem replay_buffer_fifo (ag : Agent) (t : Transition) (ts : List Transition) :
    (ag.experience.length ≤ ag.replayCapacity →
      (ts.foldl memorize_transition ag).experience.length ≤ ag.replayCapacity) ∧
    (ag.experience.length = ag.replayCapacity → 0 < ag.replayCapacity →
      (memorize_transition ag t).experience = ag.experience.tail ++ [t]) ∧
    (ag.experience.length < ag.replayCapacity →
      (memorize_transition ag t).experience = ag.experience ++ [t]) := by
  refine ⟨fun h => foldl_memorize_length ts ag h, ?_, ?_⟩
  · intro hfull hpos
    rw [memorize_transition_experience]
    cases hx : ag.experience with
    | nil =>
      rw [hx] at hfull
      simp at hfull
      omega
    | cons a as =>
      rw [hx] at hfull
      unfold dequeAppend
      have h1 : (a :: as).length + 1 - ag.replayCapacity = 1 := by
        simp at hfull ⊢
        omega
      rw [h1]
      simp
  · intro hlt
    rw [memorize_transition_experience]
    unfold dequeAppend
    have h0 : ag.experience.length + 1 - ag.replayCapacity = 0 := by omega
    rw [h0, List.drop_zero]

/-- A full two-slot replay buffer. -/
def c4Agent : Agent :=
  { notebookAgent with
      replayCapacity := 2
      experience := [⟨[], 0, 1, [], 1⟩, ⟨[], 1, 2, [], 1⟩] }

theorem replay_buffer_fifo_witness :
    c4Agent.experience.length = c4Agent.replayCapacity ∧ 0 < c4Agent.replayCapacity ∧
    (memorize_transition c4Agent termTransition).experience =
      c4Agent.experience.tail ++ [termTransition] :=
  ⟨by decide, by decide,
    (replay_buffer_fifo c4Agent termTransition []).2.1 (by decide) (by decide)⟩

lemma memorize_nonterminal_fields (ag : Agent) (t : Transition) (ht : t.notDone ≠ 0) :
    (memorize_transition ag t).episodeReward = ag.episodeReward + t.reward ∧
    (memorize_transition ag t).episodeLength = ag.episodeLength + 1 ∧
    (memorize_transition ag t).rewardsHistory = ag.rewardsHistory ∧
    (memorize_transition ag t).stepsPerEpisode = ag.stepsPerEpisode := by
  unfold memorize_transition
  rw [if_pos ht]
  exact ⟨rfl, rfl, rfl, rfl⟩

lemma memorize_terminal_histories (ag : Agent) (t : Transition) (h0 : t.notDone = 0) :
    (memorize_transition ag t).rewardsHistory = ag.rewardsHistory ++ [ag.episodeReward] ∧
    (memorize_transition ag t).stepsPerEpisode = ag.stepsPerEpisode ++ [ag.episodeLength] ∧
    (memorize_transition ag t).episodeReward = 0 ∧
    (memorize_transition ag t).episodeLength = 0 := by
  unfold memorize_transition
  rw [if_neg (by simp [h0])]
  split_ifs <;> exact ⟨rfl, rfl, rfl, rfl⟩

lemma foldl_memorize_nonterminal (ts : List Transition) :
    ∀ ag : Agent, (∀ t ∈ ts, t.notDone ≠ 0) →
      (ts.foldl memorize_transition ag).episodeReward
          = ag.episodeReward + (ts.map Transition.reward).sum ∧
      (ts.foldl memorize_transition ag).episodeLength = ag.episodeLength + ts.length ∧
      (ts.foldl memorize_transition ag).rewardsHistory = ag.rewardsHistory ∧
      (ts.foldl memorize_transition ag).stepsPerEpisode = ag.stepsPerEpisode := by
  induction ts with
  | nil => intro ag _; simp
  | cons t ts ih =>
    intro ag h
    have ht : t.notDone ≠ 0 := h t (by simp)
    have hrest : ∀ x ∈ ts, x.notDone ≠ 0 := fun x hx => h x (by simp [hx])
    obtain ⟨e1, e2, e3, e4⟩ := memorize_nonterminal_fields ag t ht
    obtain ⟨f1, f2, f3, f4⟩ := ih (memorize_transition ag t) hrest
    rw [List.foldl_cons] at *
    refine ⟨?_, ?_, ?_, ?_⟩
    · rw [f1, e1]
      simp [add_assoc]
    · rw [f2, e2]
      simp
      omega
    · rw [f3, e3]
    · rw [f4, e4]

/-- Claim C6 counterexample input: one non-terminal call with reward 1,
then the terminal call with reward 1. -/
def c6Agent : Agent :=
  memorize_transition (memorize_transition notebookAgent ⟨[], 0, 1, [], 1⟩) ⟨[], 0, 1, [], 0⟩

/-- Claim C6 counterexample: with rewards `r_1 = r_2 = 1` (one
non-terminal call, then the terminal one), the claimed entries would be
`sum(r_1, r_2) = 2` and `n + 1 = 2`; the code records `1` and `1` — the
terminal call's reward is never accumulated and the terminal step is
never counted. -/
theorem episode_bookkeeping_cex :
    c6Agent.rewardsHistory = [1] ∧ c6Agent.stepsPerEpisode = [1] ∧
    c6Agent.rewardsHistory ≠ [2] ∧ c6Agent.stepsPerEpisode ≠ [2] := by
  norm_num [c6Agent, memorize_transition, notebookAgent, mkAgent, dequeAppend]

/-- Claim C6 (amended): for `n` non-terminal recording calls with
rewards `r_1 … r_n` followed by one terminal call (whose reward is NOT
accumulated), starting from a fresh episode, the entry appended to
`rewards_history` is `r_1 + … + r_n` and the entry appended to
`steps_per_episode` is `n`; afterwards the running episode-reward and
episode-length are both zero. -/
theorem episode_bookkeeping (ag : Agent) (ts : List Transition) (t0 : Transition)
    (hts : ∀ t ∈ ts, t.notDone ≠ 0) (h0 : t0.notDone = 0)
    (hR : ag.episodeReward = 0) (hL : ag.episodeLength = 0) :
    (memorize_transition (ts.foldl memorize_transition ag) t0).rewardsHistory
        = ag.rewardsHistory ++ [(ts.map Transition.reward).sum] ∧
    (memorize_transition (ts.foldl memorize_transition ag) t0).stepsPerEpisode
        = ag.stepsPerEpisode ++ [ts.length] ∧
    (memorize_transition (ts.foldl memorize_transition ag) t0).episodeReward = 0 ∧
    (memorize_transition (ts.foldl memorize_transition ag) t0).episodeLength = 0 := by
  obtain ⟨f1, f2, f3, f4⟩ := foldl_memorize_nonterminal ts ag hts
  obtain ⟨g1, g2, g3, g4⟩ := memorize_terminal_histories (ts.foldl memorize_transition ag) t0 h0
  rw [g1, g2, g3, g4, f1, f2, f3, f4, hR, hL]
  simp

theorem episode_bookkeeping_witness :
    (∀ t ∈ ([⟨[], 0, 5, [], 1⟩] : List Transition), t.notDone ≠ 0) ∧
    termTransition.notDone = 0 ∧
    notebookAgent.episodeReward = 0 ∧ notebookAgent.episodeLength = 0 ∧
    (memorize_transition (([⟨[], 0, 5, [], 1⟩] : List Transition).foldl memorize_transition
        notebookAgent) termTransition).rewardsHistory
      = notebookAgent.rewardsHistory
          ++ [(([⟨[], 0, 5, [], 1⟩] : List Transition).map Transition.reward).sum] :=
  ⟨by decide, rfl, rfl, rfl,
    (episode_bookkeeping notebookAgent [⟨[], 0, 5, [], 1⟩] termTransition
      (by decide) rfl rfl rfl).1⟩

lemma memorize_terminal_linear (ag : Agent) (t : Transition) (h0 : t.notDone = 0)
    (htr : ag.train = true) (hlt : ag.episodes < ag.epsilonDecaySteps) :
    (memorize_transition ag t).epsilon = ag.epsilon - ag.epsilonDecay ∧
    (memorize_transition ag t).episodes = ag.episodes + 1 ∧
    (memorize_transition ag t).train = ag.train ∧
    (memorize_transition ag t).epsilonDecaySteps = ag.epsilonDecaySteps ∧
    (memorize_transition ag t).epsilonDecay = ag.epsilonDecay ∧
    (memorize_transition ag t).epsilonExponentialDecay = ag.epsilonExponentialDecay := by
  unfold memorize_transition
  rw [if_neg (by simp [h0]), if_pos htr, if_pos hlt]
  exact ⟨rfl, rfl, rfl, rfl, rfl, rfl⟩

lemma memorize_terminal_exponential (ag : Agent) (t : Transition) (h0 : t.notDone = 0)
    (htr : ag.train = true) (hge : ¬ ag.episodes < ag.epsilonDecaySteps) :
    (memorize_transition ag t).epsilon = ag.epsilon * ag.epsilonExponentialDecay := by
  unfold memorize_transition
  rw [if_neg (by simp [h0]), if_pos htr, if_neg hge]

lemma terminal_iterate_linear (t : Transition) (h0 : t.notDone = 0) :
    ∀ (n : ℕ) (ag : Agent), ag.train = true → ag.episodes + n ≤ ag.epsilonDecaySteps →
      ((fun a => memorize_transition a t)^[n] ag).epsilon
          = ag.epsilon - n * ag.epsilonDecay ∧
      ((fun a => memorize_transition a t)^[n] ag).episodes = ag.episodes + n ∧
      ((fun a => memorize_transition a t)^[n] ag).train = ag.train ∧
      ((fun a => memorize_transition a t)^[n] ag).epsilonDecaySteps = ag.epsilonDecaySteps ∧
      ((fun a => memorize_transition a t)^[n] ag).epsilonDecay = ag.epsilonDecay ∧
      ((fun a => memorize_transition a t)^[n] ag).epsilonExponentialDecay
          = ag.epsilonExponentialDecay := by
  intro n
  induction n with
  | zero => intro ag htr _; simp
  | succ n ih =>
    intro ag htr hle
    have hlt : ag.episodes < ag.epsilonDecaySteps := by omega
    obtain ⟨s1, s2, s3, s4, s5, s6⟩ := memorize_terminal_linear ag t h0 htr hlt
    have htr2 : (memorize_transition ag t).train = true := by rw [s3, htr]
    have hle2 : (memorize_transition ag t).episodes + n
        ≤ (memorize_transition ag t).epsilonDecaySteps := by
      rw [s2, s4]; omega
    obtain ⟨r1, r2, r3, r4, r5, r6⟩ := ih (memorize_transition ag t) htr2 hle2
    rw [Function.iterate_succ_apply]
    refine ⟨?_, ?_, ?_, ?_, ?_, ?_⟩
    · rw [r1, s1, s5]
      push_cast
      ring
    · rw [r2, s2]
      omega
    · rw [r3, s3]
    · rw [r4, s4]
    · rw [r5, s5]
    · rw [r6, s6]

/-- Claim C2: for the agent the notebook constructs
(`epsilon_start = 1.0`, `epsilon_end = 0.01`,
`epsilon_decay_steps = 250`, `epsilon_exponential_decay = 0.99`,
training mode on), after exactly 250 terminal recording calls ε equals
`1.0 − 250 · ((1.0 − 0.01)/250) = 0.01`, and after the 251st such call
ε equals `0.01 · 0.99 = 0.0099` (exact rational arithmetic standing in
for the floating-point computation). -/
theorem epsilon_schedule_concrete :
    ((fun a => memorize_transition a termTransition)^[250] notebookAgent).epsilon = 1/100 ∧
    ((fun a => memorize_transition a termTransition)^[251] notebookAgent).epsilon = 99/10000 := by
  have h0 : termTransition.notDone = 0 := rfl
  obtain ⟨he, hep, htr, hds, hd, hx⟩ :=
    terminal_iterate_linear termTransition h0 250 notebookAgent rfl (by decide)
  have hdecay : notebookAgent.epsilonDecay = 99/25000 := by
    norm_num [notebookAgent, mkAgent]
  have heps : ((fun a => memorize_transition a termTransition)^[250] notebookAgent).epsilon
      = 1/100 := by
    rw [he, hdecay]
    show (1 : ℚ) - 250 * (99/25000) = 1/100
    norm_num
  refine ⟨heps, ?_⟩
  rw [Function.iterate_succ_apply']
  have hge : ¬ ((fun a => memorize_transition a termTransition)^[250] notebookAgent).episodes
      < ((fun a => memorize_transition a termTransition)^[250] notebookAgent).epsilonDecaySteps := by
    rw [hep, hds]
    decide
  have hexp := memorize_terminal_exponential
    ((fun a => memorize_transition a termTransition)^[250] notebookAgent) termTransition h0
    (by rw [htr]; rfl) hge
  rw [hexp, heps, hx]
  show (1/100 : ℚ) * notebookAgent.epsilonExponentialDecay = 99/10000
  norm_num [notebookAgent, mkAgent]

lemma ddqnTargets_eq_map (g : ℚ) (o tg : List ℚ → List ℚ) (b : List Transition) :
    ddqnTargets g o tg b = b.map (fun tr =>
      tr.reward + tr.notDone * g * ((tg tr.nextState).getD (argmaxIdx (o tr.nextState)) 0)) := by
  induction b with
  | nil => rfl
  | cons t ts ih =>
    simp only [ddqnTargets, List.map_cons, List.zip_cons_cons] at ih ⊢
    rw [ih]

/-- Claim C1: every entry of the regression-target vector computed in a
learning update equals
`reward + not_done · γ · targetNet(next_state)[argmax onlineNet(next_state)]`
— the action is selected by the online network's argmax, the value is
read from the target network — and for a terminal sample
(`not_done = 0`) the target is the immediate reward alone. -/
theorem ddqn_target_per_sample (g : ℚ) (o tg : List ℚ → List ℚ)
    (b : List Transition) (i : ℕ) (h : i < b.length) :
    (ddqnTargets g o tg b).getD i 0 =
      (b.getD i default).reward + (b.getD i default).notDone * g *
        ((tg (b.getD i default).nextState).getD
          (argmaxIdx (o (b.getD i default).nextState)) 0) ∧
    ((b.getD i default).notDone = 0 →
      (ddqnTargets g o tg b).getD i 0 = (b.getD i default).reward) := by
  have key : (ddqnTargets g o tg b).getD i 0 =
      (b.getD i default).reward + (b.getD i default).notDone * g *
        ((tg (b.getD i default).nextState).getD
          (argmaxIdx (o (b.getD i default).nextState)) 0) := by
    rw [ddqnTargets_eq_map]
    rw [List.getD_eq_getElem?_getD, List.getElem?_map, List.getElem?_eq_getElem h]
    rw [List.getD_eq_getElem?_getD, List.getElem?_eq_getElem h]
    rfl
  refine ⟨key, fun h0 => ?_⟩
  rw [key, h0]
  ring

/-- A one-sample batch for the witness: reward 5, non-terminal, with
known network outputs. -/
def c1Batch : List Transition := [⟨[], 0, 5, [7], 1⟩]

/-- Known online next-state action-values: argmax index 1. -/
def c1Online : List ℚ → List ℚ := fun _ => [1, 2, 0]

/-- Known target next-state action-values: entry 1 is 20. -/
def c1Target : List ℚ → List ℚ := fun _ => [10, 20, 30]

theorem ddqn_target_per_sample_witness :
    0 < c1Batch.length ∧ (ddqnTargets (1/2) c1Online c1Target c1Batch).getD 0 0 = 15 := by
  refine ⟨by decide, ?_⟩
  have h := (ddqn_target_per_sample (1/2) c1Online c1Target c1Batch 0 (by decide)).1
  rw [h]
  have harg : argmaxIdx (c1Online (c1Batch.getD 0 default).nextState) = 1 := by decide
  rw [harg]
  show (5 : ℚ) + 1 * (1/2) * 20 = 15
  norm_num

/-- Network evaluation with a fixed output whose argmax index is 1. -/
def c7Eval : List ℚ → List ℚ → List ℚ := fun _ _ => [0, 1, 0]

/-- The notebook agent with ε forced to 0. -/
def c7Agent : Agent := { notebookAgent with epsilon := 0 }

/-- Claim C7 counterexample: with ε = 0 and the uniform draw landing
exactly on 0.0 (a value `np.random.rand()` can return), the comparison
`rand() <= epsilon` still succeeds, so a uniformly random action (here
0) is returned instead of the argmax (here 1): action selection at
ε = 0 is not deterministic regardless of the random draw. -/
theorem epsilon_zero_cex :
    (epsilon_greedy_policy c7Eval c7Agent 0 0 []).2 = 0 ∧
    argmaxIdx (c7Eval c7Agent.onlineWeights []) = 1 ∧
    (epsilon_greedy_policy c7Eval c7Agent 0 0 []).2 ≠
      argmaxIdx (c7Eval c7Agent.onlineWeights []) := by
  refine ⟨by decide, by decide, by decide⟩

/-- Claim C7 (amended): with ε = 1.0 every call returns the uniformly
drawn random action (the greedy branch is unreachable for draws in
`[0,1)`); with ε = 0.0 the call returns the argmax of the online
network's action-values for every draw `u > 0`, but a draw of exactly 0
still takes the random branch (the code compares with `<=`). -/
theorem epsilon_boundary (ev : List ℚ → List ℚ → List ℚ) (ag : Agent)
    (u : ℚ) (c : ℕ) (s : List ℚ) :
    (ag.epsilon = 1 → 0 ≤ u → u < 1 → (epsilon_greedy_policy ev ag u c s).2 = c) ∧
    (ag.epsilon = 0 → 0 < u →
      (epsilon_greedy_policy ev ag u c s).2 = argmaxIdx (ev ag.onlineWeights s)) ∧
    (ag.epsilon = 0 → u = 0 → (epsilon_greedy_policy ev ag u c s).2 = c) := by
  refine ⟨?_, ?_, ?_⟩
  · intro h1 _ hlt
    have hle : u ≤ ag.epsilon := by rw [h1]; exact le_of_lt hlt
    simp [epsilon_greedy_policy, hle]
  · intro h0 hpos
    have hng : ¬ u ≤ ag.epsilon := by rw [h0]; exact not_le.mpr hpos
    simp [epsilon_greedy_policy, hng]
  · intro h0 hu
    have hle : u ≤ ag.epsilon := by rw [h0, hu]
    simp [epsilon_greedy_policy, hle]

theorem epsilon_boundary_witness :
    notebookAgent.epsilon = 1 ∧ (0 : ℚ) ≤ 0 ∧ (0 : ℚ) < 1 ∧
    (epsilon_greedy_policy c7Eval notebookAgent 0 2 []).2 = 2 :=
  ⟨rfl, le_refl 0, by decide,
    (epsilon_boundary c7Eval notebookAgent 0 2 []).1 rfl (le_refl 0) (by decide)⟩

lemma sum_map_indicator (l : List ℚ) :
    (l.map (fun d => if 0 < d then 1 else 0)).sum = l.countP (fun d => decide (0 < d)) := by
  induction l with
  | nil => rfl
  | cons x xs ih =>
    rw [List.map_cons, List.sum_cons, List.countP_cons, ih]
    by_cases hx : 0 < x
    · simp [hx, Nat.add_comm]
    · simp [hx]

/-- Claim C8: the `Strategy Wins (%)` value at (0-based) row `i` is
absent for the first 99 rows, and from row 99 on it is the plain count
(not a normalized percentage) of rows in the trailing 100-row window
`[i-99, i]` whose `Difference` entry is strictly positive. -/
theorem strategy_wins_rolling (diffs : List ℚ) (i : ℕ) (hi : i < diffs.length) :
    (i < 99 → (strategyWinsCol diffs).getD i none = none) ∧
    (99 ≤ i → (strategyWinsCol diffs).getD i none =
      some (((diffs.take (i + 1)).drop (i - 99)).countP (fun d => decide (0 < d)))) := by
  have hlen : i < (diffs.map (fun d => if 0 < d then (1 : ℕ) else 0)).length := by
    simpa using hi
  have hcell : (strategyWinsCol diffs).getD i none =
      (if i + 1 < 100 then none else
        some ((((diffs.map (fun d => if 0 < d then (1 : ℕ) else 0)).take (i + 1)).drop
          (i + 1 - 100)).sum)) := by
    rw [strategyWinsCol, rollingSum, List.getD_eq_getElem?_getD, List.getElem?_map,
      List.getElem?_range (by simpa using hlen)]
    rfl
  constructor
  · intro h99
    rw [hcell, if_pos (by omega)]
  · intro h99
    rw [hcell, if_neg (by omega)]
    have harith : i + 1 - 100 = i - 99 := by omega
    rw [harith, ← List.map_take, ← List.map_drop, sum_map_indicator]

set_option maxRecDepth 4000 in
theorem strategy_wins_rolling_witness :
    99 < (List.replicate 100 (1 : ℚ)).length ∧
    (strategyWinsCol (List.replicate 100 (1 : ℚ))).getD 99 none = some 100 := by
  refine ⟨by decide, ?_⟩
  have h := (strategy_wins_rolling (List.replicate 100 (1 : ℚ)) 99 (by decide)).2 (by decide)
  rw [h]
  decide

/-- Claim C9: `flatten_cols` on a table whose labels are two-level
tuples replaces, in place (the store entry at `r` is overwritten), each
label by the two levels joined with a single space and stripped of
surrounding whitespace — `("a", "")` becomes `"a"` and `("b", "c")`
becomes `"b c"` — leaves the rows untouched, and returns the very same
reference `r` it was given. -/
theorem flatten_cols_spec (σ : List MDF) (r : ℕ) (df : MDF) (h : σ.get? r = some df) :
    flatten_cols σ r = some (σ.set r ⟨df.cols.map flattenLabel, df.rows⟩, r) ∧
    flattenLabel (.tup "a" "") = .str "a" ∧
    flattenLabel (.tup "b" "c") = .str "b c" := by
  refine ⟨?_, by decide, by decide⟩
  unfold flatten_cols
  rw [h]

/-- A one-object store holding the table of the claim's example. -/
def c9Store : List MDF := [⟨[.tup "a" "", .tup "b" "c"], [[1, 2]]⟩]

theorem flatten_cols_spec_witness :
    c9Store.get? 0 = some ⟨[.tup "a" "", .tup "b" "c"], [[1, 2]]⟩ ∧
    flatten_cols c9Store 0 = some (c9Store.set 0 ⟨[.str "a", .str "b c"], [[1, 2]]⟩, 0) := by
  refine ⟨rfl, ?_⟩
  have h := (flatten_cols_spec c9Store 0 ⟨[.tup "a" "", .tup "b" "c"], [[1, 2]]⟩ rfl).1
  rw [h]
  decide

/-- Claim C10: `mask` never mutates its input table — every object that
existed in the store before the call (in particular the input at `r`)
is unchanged afterwards — and the filtered result is a fresh object, at
a reference distinct from the input's, holding exactly the rows on
which the predicate is true. -/
theorem mask_no_mutation (σ : List DF) (r : ℕ) (key : String) (p : Int → Bool)
    (out : List DF × ℕ) (h : mask σ r key p = some out) :
    (∀ i, i < σ.length → out.1.get? i = σ.get? i) ∧
    r < σ.length ∧ out.2 = σ.length ∧ out.2 ≠ r ∧
    ∃ df fd, σ.get? r = some df ∧ maskFilter df key p = some fd ∧ out.1 = σ ++ [fd] := by
  unfold mask at h
  cases hget : σ.get? r with
  | none =>
    rw [hget] at h
    simp at h
  | some df =>
    rw [hget] at h
    cases hmf : maskFilter df key p with
    | none =>
      simp only [hmf] at h
      cases h
    | some fd =>
      simp only [hmf] at h
      injection h with h
      subst h
      have hr : r < σ.length := by
        by_contra hge
        rw [List.get?_eq_none.mpr (by omega)] at hget
        cases hget
      refine ⟨?_, hr, rfl, by omega, df, fd, rfl, hmf, rfl⟩
      intro i hilt
      exact List.get?_append hilt

/-- A one-object store: a table with column `"x"` and rows 1 and 3. -/
def c10Store : List DF := [⟨["x"], [[1], [3]]⟩]

/-- The predicate `value > 2`. -/
def c10Pred : Int → Bool := fun v => decide (2 < v)

/-- The filtered table the call on `c10Store` allocates. -/
def c10Filtered : DF := ⟨["x"], [[3]]⟩

theorem mask_no_mutation_witness :
    mask c10Store 0 "x" c10Pred = some (c10Store ++ [c10Filtered], 1) ∧
    (c10Store ++ [c10Filtered]).get? 0 = c10Store.get? 0 ∧ (1 : ℕ) ≠ 0 := by
  have h := mask_no_mutation c10Store 0 "x" c10Pred (c10Store ++ [c10Filtered], 1) (by decide)
  exact ⟨by decide, h.1 0 (by decide), h.2.2.2.1⟩
